import Mathlib

/-!
# Verification of the pulso breathing-exercise timing core

Shallow embedding of `src/pulso_v2.py`. Real-number arithmetic of the
source (Python floats) is modelled exactly over `ℚ`; fallible code
(Python exceptions such as `IndexError`, `KeyError`, or a failed
`float(...)` parse) is modelled with `Option`. State mutated on the
instance (`is_running`, `progress`, `current_phase`, `scheduled_end`,
and the pending tick callback in the Tk event queue) is modelled as an
explicit `AppState` record, with the methods as state transformers.
-/

namespace Pulso

/-- Python dataclass `BreathingPattern` (pulso_v2.py lines 6-10). -/
structure BreathingPattern where
  phases : List ℚ
  uses_pace : Bool
  labels : List String
  deriving Repr, DecidableEq

/-- Dict `PHASE_COLORS` (line 23), as an association list in the
source's literal order. -/
def PHASE_COLORS : List (String × String) :=
  [("inhale", "#3498db"), ("hold", "#2ecc71"), ("exhale", "#e67e22")]

/-- Dict `SCALE_FACTORS` of per-phase lambdas (lines 24-28), as an
association list in the source's literal order. -/
def SCALE_FACTORS : List (String × (ℚ → ℚ)) :=
  [("inhale", fun p => 0.2 + 0.8 * p),
   ("exhale", fun p => 1.0 - 0.8 * p),
   ("hold",   fun _ => 1.0)]

/-- Lookup-and-apply `SCALE_FACTORS[label](p)` (line 186); `none`
models a `KeyError`. -/
def scaleFactor (label : String) (p : ℚ) : Option ℚ :=
  (SCALE_FACTORS.lookup label).map (· p)

/-- Dict lookup `PHASE_COLORS[label]` (line 184); `none` models a
`KeyError`. -/
def phaseColor (label : String) : Option String :=
  PHASE_COLORS.lookup label

/-- First pattern of the `self.patterns` table, "Balanced (1:1)"
(line 36). -/
def balanced_pattern : BreathingPattern := ⟨[1, 1], true, ["inhale", "exhale"]⟩

/-- Last pattern of the `self.patterns` table, "4-7-8 (+hold)"
(line 39). -/
def pat478 : BreathingPattern := ⟨[4, 7, 8], false, ["inhale", "hold", "exhale"]⟩

/-- Table `self.patterns` built in `__init__` (lines 35-40). -/
def patterns : List (String × BreathingPattern) :=
  [("Balanced (1:1)", ⟨[1, 1], true,  ["inhale", "exhale"]⟩),
   ("Calm (1:2)",     ⟨[1, 2], true,  ["inhale", "exhale"]⟩),
   ("Vitality (2:1)", ⟨[2, 1], true,  ["inhale", "exhale"]⟩),
   ("4-7-8 (+hold)",  ⟨[4, 7, 8], false, ["inhale", "hold", "exhale"]⟩)]

/-- Python's `x % m` on reals for `m > 0`: `x - m * floor (x / m)`. -/
def pymod (x m : ℚ) : ℚ := x - m * ⌊x / m⌋

/-- Loop of `_calc_phase_progress` (lines 173-180).  `t` is the
position in duration units, `c` the running cumulative offset, `ds` the
remaining `pat.phases` suffix and `ls` the matching suffix of
`pat.labels` (Python indexes `pat.labels[i]` with `i` the position in
`phases`, so the two lists advance in lockstep; a missing label is an
`IndexError`, hence `none`).  `last?` is `pat.labels[-1]` for the
fall-through `return pat.labels[-1], 1.0, 0.0` (line 180); on an empty
label list that indexing is an `IndexError`, hence the `Option`. -/
def calcGo (last? : Option String) : ℚ → ℚ → List ℚ → List String →
    Option (String × ℚ × ℚ)
  | _, _, [], _ => last?.map fun l => (l, 1.0, 0.0)
  | t, c, d :: ds, ls =>
    if t < c + d then
      ls.head?.map fun l => (l, (t - c) / d, d - (t - c))
    else
      calcGo last? t (c + d) ds ls.tail

/-- Method `_calc_phase_progress(self, norm, pat, total)`
(lines 171-180), the `resolvePhase` operation of the spec. -/
def calc_phase_progress (norm : ℚ) (pat : BreathingPattern) (total : ℚ) :
    Option (String × ℚ × ℚ) :=
  calcGo pat.labels.getLast? (norm * total) 0 pat.phases pat.labels

/-- Value `cycle_time` as computed in `_run_breathing_cycle` line 164:
`60 / self.breath_pace.get() if pat.uses_pace else total`. -/
def cycleSeconds (pat : BreathingPattern) (pace : ℚ) : ℚ :=
  if pat.uses_pace then 60 / pace else pat.phases.sum

/-- Progress update of `_run_breathing_cycle` line 165, as the pure
operation `advance` of the spec.  The source adds
`UPDATE_INTERVAL / (cycle_time * 1000)`, i.e. the tick duration in
seconds divided by the cycle length in seconds, then reduces `% 1`. -/
def advance (prevProgress tickDurationSeconds : ℚ)
    (pat : BreathingPattern) (pace : ℚ) : ℚ :=
  pymod (prevProgress + tickDurationSeconds / cycleSeconds pat pace) 1

/-- Python's built-in `round` (banker's rounding, round half to even),
used by `_update_scale` line 111. -/
def pyround (x : ℚ) : ℤ :=
  let f : ℤ := ⌊x⌋
  let r : ℚ := x - f
  if r < 1 / 2 then f
  else if 1 / 2 < r then f + 1
  else if f % 2 = 0 then f else f + 1

/-- Method `_update_scale(self, value, var, label, mn, mx, step, unit)`
(lines 109-118).  `value` is the slider's string argument: `some v`
when `float(value)` parses to `v`, `none` when it raises (taking the
`except` branch).  `cur` is `var.get()`.  Result: the value stored back
into `var`, paired with whether `self.master.bell()` rang.  The bare
`except` means no exception propagates, so the function is total. -/
def update_scale (value : Option ℚ) (cur mn mx step : ℚ) : ℚ × Bool :=
  match value with
  | some v =>
    let scaled := (pyround (v / step) : ℚ) * step
    let clamped := max mn (min scaled mx)
    (clamped, false)
  | none => (cur, true)

/-- Mutable session state of `BreathingApp`: the instance fields
assigned in `__init__` lines 45-48, plus `pending_tick`, which records
whether a `_run_breathing_cycle` callback is pending in the Tk event
queue (the handle of `master.after(UPDATE_INTERVAL, ...)` at line 169
is never stored by the source).  `scheduled_end` is the handle of the
pending session-end callback, `none` when no such callback is queued. -/
structure AppState where
  is_running : Bool
  progress : ℚ
  current_phase : String
  scheduled_end : Option Nat
  pending_tick : Bool
  deriving Repr, DecidableEq

/-- Method `reset_visuals` (lines 153-158): the state mutations only
(canvas drawing is rendering, outside the modelled state). -/
def reset_visuals (s : AppState) : AppState :=
  { s with progress := 0, current_phase := "exhale" }

/-- Method `stop_session` (lines 136-142).
`after_cancel(self.scheduled_end)` removes the session-end callback
from the event queue, modelled by dropping the handle; the pending tick
callback is untouched (its handle was never stored).  Then
`reset_visuals` runs unconditionally. -/
def stop_session (s : AppState) : AppState :=
  reset_visuals <|
    if s.is_running then
      { s with is_running := false, scheduled_end := none }
    else s

/-- Body of `_run_breathing_cycle` (lines 160-169) once the callback
has been taken off the queue.  Returns `none` when the body raises (a
label `IndexError` in `_calc_phase_progress`, or a `KeyError` in
`_update_visuals`' dict lookups, lines 184 and 186); on the early
`return` (line 161) nothing is rescheduled.  On the normal path the
trailing `master.after` (line 169) queues the next tick. -/
def run_breathing_cycle (pat : BreathingPattern) (pace : ℚ)
    (s : AppState) : Option AppState :=
  if s.is_running = false then some s
  else
    let total := pat.phases.sum
    let cycle_time := if pat.uses_pace then 60 / pace else total
    let prog := pymod (s.progress + 16 / (cycle_time * 1000)) 1
    match calc_phase_progress prog pat total with
    | none => none
    | some (phase, _, _) =>
      match phaseColor phase, scaleFactor phase 0 with
      | some _, some _ =>
        some { s with progress := prog, current_phase := phase,
                      pending_tick := true }
      | _, _ => none

/-- Dispatch of a pending tick callback from the event queue: the
callback only runs if it is still queued, and running it consumes the
queue entry before `_run_breathing_cycle` executes. -/
def fire_tick (pat : BreathingPattern) (pace : ℚ) (s : AppState) :
    Option AppState :=
  if s.pending_tick then
    run_breathing_cycle pat pace { s with pending_tick := false }
  else some s

/-- Method `toggle_session` (lines 126-134): flips the running flag
first (line 127); if the session is now running it stores the handle
of the session-end callback returned by `master.after` (modelled by
the `endHandle` argument, line 131) and runs `_run_breathing_cycle`
synchronously (line 132); otherwise it calls `stop_session`
(line 134) — with the running flag already cleared. -/
def toggle_session (pat : BreathingPattern) (pace : ℚ) (endHandle : Nat)
    (s : AppState) : Option AppState :=
  let s1 := { s with is_running := !s.is_running }
  if s1.is_running then
    run_breathing_cycle pat pace { s1 with scheduled_end := some endHandle }
  else
    some (stop_session s1)

/-- Any label returned by the phase loop is one of the labels passed
in, or is the fallback label. -/
theorem calcGo_label_mem (last? : Option String) (t : ℚ) :
    ∀ (ds : List ℚ) (ls : List String) (c : ℚ) (l : String) (f r : ℚ),
      calcGo last? t c ds ls = some (l, f, r) → l ∈ ls ∨ last? = some l := by
  intro ds
  induction ds with
  | nil =>
    intro ls c l f r h
    rw [calcGo, Option.map_eq_some'] at h
    obtain ⟨a, ha, hv⟩ := h
    exact Or.inr (ha.trans (congrArg some (congrArg Prod.fst hv)))
  | cons d ds ih =>
    intro ls c l f r h
    rw [calcGo] at h
    by_cases hlt : t < c + d
    · rw [if_pos hlt, Option.map_eq_some'] at h
      obtain ⟨a, ha, hv⟩ := h
      have ha' : a ∈ ls := List.mem_of_mem_head? ha
      have : a = l := congrArg Prod.fst hv
      exact Or.inl (this ▸ ha')
    · rw [if_neg hlt] at h
      rcases ih ls.tail (c + d) l f r h with hm | hf
      · exact Or.inl (List.mem_of_mem_tail hm)
      · exact Or.inr hf

/-- The phase loop returns a value whenever the label list matches the
phase list in length and the fallback label exists. -/
theorem calcGo_isSome (last? : Option String) (t : ℚ)
    (hlast : last?.isSome = true) :
    ∀ (ds : List ℚ) (ls : List String), ds.length = ls.length →
      ∀ c, (calcGo last? t c ds ls).isSome = true := by
  intro ds
  induction ds with
  | nil => intro ls _ c; rw [calcGo]; simpa using hlast
  | cons d ds ih =>
    intro ls hlen c
    cases ls with
    | nil => simp at hlen
    | cons l ls =>
      rw [calcGo]
      by_cases hlt : t < c + d
      · simp [hlt]
      · rw [if_neg hlt]
        exact ih ls (by simpa using hlen) (c + d)

/-- With positive durations, a matching label list, a fallback label,
and a position at or past the running offset, the phase loop returns a
phase fraction in the closed unit interval. -/
theorem calcGo_bounds (last? : Option String) (t : ℚ)
    (hlast : last?.isSome = true) :
    ∀ (ds : List ℚ) (ls : List String), ds.length = ls.length →
      (∀ d ∈ ds, 0 < d) → ∀ c, c ≤ t →
      ∃ l f r, calcGo last? t c ds ls = some (l, f, r) ∧ 0 ≤ f ∧ f ≤ 1 := by
  intro ds
  induction ds with
  | nil =>
    intro ls _ _ c _
    obtain ⟨l0, hl0⟩ := Option.isSome_iff_exists.mp hlast
    exact ⟨l0, 1, 0, by rw [calcGo, hl0]; norm_num, by norm_num, le_refl 1⟩
  | cons d ds ih =>
    intro ls hlen hpos c hc
    cases ls with
    | nil => simp at hlen
    | cons l ls =>
      have hd : 0 < d := hpos d (by simp)
      by_cases hlt : t < c + d
      · refine ⟨l, (t - c) / d, d - (t - c), ?_, ?_, ?_⟩
        · rw [calcGo, if_pos hlt]; rfl
        · exact div_nonneg (by linarith) hd.le
        · exact (div_le_one hd).mpr (by linarith)
      · obtain ⟨l2, f2, r2, hgo, hf0, hf1⟩ :=
          ih ls (by simpa using hlen) (fun x hx => hpos x (by simp [hx])) (c + d)
            (by push_neg at hlt; exact hlt)
        exact ⟨l2, f2, r2, by rw [calcGo, if_neg hlt]; exact hgo, hf0, hf1⟩

/-- When the position is at or past the whole remaining duration, the
phase loop falls through every branch and returns the fallback. -/
theorem calcGo_fallback (last? : Option String) (t : ℚ) :
    ∀ (ds : List ℚ) (ls : List String), (∀ d ∈ ds, 0 ≤ d) → ∀ c, c + ds.sum ≤ t →
      calcGo last? t c ds ls = last?.map fun l => (l, 1.0, 0.0) := by
  intro ds
  induction ds with
  | nil => intro ls _ c _; rw [calcGo]
  | cons d ds ih =>
    intro ls hpos c hsum
    have hs : 0 ≤ ds.sum := List.sum_nonneg fun x hx => hpos x (by simp [hx])
    have hsum' : c + d + ds.sum ≤ t := by
      simpa [List.sum_cons, add_assoc] using hsum
    have hlt : ¬ t < c + d := by push_neg; linarith
    rw [calcGo, if_neg hlt]
    exact ih ls.tail (fun x hx => hpos x (by simp [hx])) (c + d) hsum'

/-- When the position falls inside phase `i` (at or past the cumulative
offset of the first `i` phases, strictly before that offset plus phase
`i`), the phase loop answers with phase `i`'s label, fraction and
remainder. -/
theorem calcGo_at_index (last? : Option String) (t : ℚ) :
    ∀ (i : ℕ) (ds : List ℚ) (ls : List String) (hi : i < ds.length)
      (hj : i < ls.length), (∀ d ∈ ds, 0 ≤ d) → ∀ c,
      (ds.take i).sum + c ≤ t → t < (ds.take i).sum + c + ds.get ⟨i, hi⟩ →
      calcGo last? t c ds ls =
        some (ls.get ⟨i, hj⟩, (t - ((ds.take i).sum + c)) / ds.get ⟨i, hi⟩,
              ds.get ⟨i, hi⟩ - (t - ((ds.take i).sum + c))) := by
  intro i
  induction i with
  | zero =>
    intro ds ls hi hj _ c hc hlt
    cases ds with
    | nil => simp at hi
    | cons d ds =>
      cases ls with
      | nil => simp at hj
      | cons l ls =>
        simp only [List.take_zero, List.sum_nil, zero_add, List.get] at hc hlt ⊢
        rw [calcGo, if_pos hlt]
        rfl
  | succ i ih =>
    intro ds ls hi hj hpos c hc hlt
    cases ds with
    | nil => simp at hi
    | cons d ds =>
      cases ls with
      | nil => simp at hj
      | cons l ls =>
        have hd : 0 ≤ d := hpos d (by simp)
        have htk : 0 ≤ (ds.take i).sum :=
          List.sum_nonneg fun x hx =>
            hpos x (by simp [List.mem_of_mem_take hx])
        have hsum : (List.take (i + 1) (d :: ds)).sum = d + (ds.take i).sum := by
          simp [List.take_cons, List.sum_cons]
        rw [hsum] at hc hlt
        have hnlt : ¬ t < c + d := by push_neg; linarith
        rw [calcGo, if_neg hnlt]
        have := ih ds ls (by simpa using hi) (by simpa using hj)
          (fun x hx => hpos x (by simp [hx])) (c + d)
          (by linarith) (by
            have : (d :: ds).get ⟨i + 1, hi⟩ = ds.get ⟨i, by simpa using hi⟩ := rfl
            rw [this] at hlt
            linarith)
        rw [show (List.take i ds).sum + (c + d) = d + (List.take i ds).sum + c
              from by ring] at this
        have hget : (d :: ds).get ⟨i + 1, hi⟩ = ds.get ⟨i, by simpa using hi⟩ := rfl
        have hgetl : (l :: ls).get ⟨i + 1, hj⟩ = ls.get ⟨i, by simpa using hj⟩ := rfl
        rw [List.tail_cons, hget, hgetl, hsum]
        exact this

/-- Python's `% 1` coincides with the fractional-part function. -/
theorem pymod_one_eq_fract (x : ℚ) : pymod x 1 = Int.fract x := by
  rw [pymod, div_one, one_mul, Int.fract]

/-- A nonempty label list has a last element. -/
theorem labels_getLast_isSome (ls : List String) (hne : ls ≠ []) :
    ls.getLast?.isSome = true := by
  rw [List.getLast?_isSome]
  exact hne

/-- Under the length invariant, `_calc_phase_progress` always returns
a triple whose label is one of the pattern's labels, for every
progress value and total. -/
theorem calc_phase_progress_mem (pat : BreathingPattern) (norm total : ℚ)
    (hlen : pat.phases.length = pat.labels.length) (hne : pat.labels ≠ []) :
    ∃ l f r, calc_phase_progress norm pat total = some (l, f, r) ∧
      l ∈ pat.labels := by
  have hlast := labels_getLast_isSome pat.labels hne
  have hs := calcGo_isSome pat.labels.getLast? (norm * total) hlast
    pat.phases pat.labels hlen 0
  obtain ⟨⟨l, f, r⟩, hx⟩ := Option.isSome_iff_exists.mp hs
  refine ⟨l, f, r, hx, ?_⟩
  rcases calcGo_label_mem _ _ _ _ _ _ _ _ hx with hm | hg
  · exact hm
  · obtain ⟨h, rfl⟩ := List.mem_getLast?_eq_getLast (Option.mem_def.mpr hg)
    exact List.getLast_mem h

/-- Every pattern of the compiled-in table satisfies the spec
invariant, and each of its labels is one of the three known phase
names. -/
theorem patterns_invariant (name : String) (pat : BreathingPattern)
    (hmem : (name, pat) ∈ patterns) :
    pat.phases.length = pat.labels.length ∧ pat.labels ≠ [] ∧
    (∀ d ∈ pat.phases, 0 < d) ∧
    (∀ l ∈ pat.labels, l = "inhale" ∨ l = "hold" ∨ l = "exhale") := by
  simp only [patterns, List.mem_cons, List.not_mem_nil, or_false,
    Prod.mk.injEq] at hmem
  rcases hmem with ⟨_, rfl⟩ | ⟨_, rfl⟩ | ⟨_, rfl⟩ | ⟨_, rfl⟩ <;>
    refine ⟨rfl, by simp, ?_, ?_⟩ <;> intro x hx <;> simp at hx
  all_goals first
    | (rcases hx with rfl | rfl <;> norm_num)
    | (rcases hx with rfl | rfl | rfl <;> norm_num)

/-- Claim C1 (code bug): `_calc_phase_progress` returns the remaining
time of the current phase in raw duration units (`d - e`, line 177),
never rescaled by `cycleSeconds / totalUnits`, yet `_update_visuals`
displays it with an `"s"` (seconds) suffix (line 185).  For the
pace-based pattern `[1, 1]` at progress `1/4` and the default pace of
5.5 breaths per minute, the code yields remaining `1/2`, which is
neither `1/2 * (cycleSeconds / totalUnits)` (the spec's conversion
formula) nor `1/2 * cycleSeconds` (the spec's Scenario 1 value). -/
theorem calc_phase_rem_units_not_seconds :
    calc_phase_progress (1/4) balanced_pattern 2 = some ("inhale", 1/2, 1/2) ∧
    balanced_pattern.uses_pace = true ∧
    cycleSeconds balanced_pattern (11/2) = 120/11 ∧
    ((1:ℚ)/2) ≠ (1/2) * (cycleSeconds balanced_pattern (11/2) / balanced_pattern.phases.sum) ∧
    ((1:ℚ)/2) ≠ (1/2) * cycleSeconds balanced_pattern (11/2) := by
  refine ⟨?_, rfl, ?_, ?_, ?_⟩
  · norm_num [calc_phase_progress, calcGo, balanced_pattern]
  · norm_num [cycleSeconds, balanced_pattern]
  · norm_num [cycleSeconds, balanced_pattern]
  · norm_num [cycleSeconds, balanced_pattern]

/-- Claim C2: under the pattern invariant, `resolvePhase` is total on
progress values in `[0, 1)`, returning a label of the pattern with a
phase fraction in `[0, 1]`; and whenever `t = progress * totalUnits`
reaches or exceeds `totalUnits`, the loop falls through to the last
label with fraction `1.0` and remaining `0.0`. -/
theorem resolvePhase_total_and_fallback (pat : BreathingPattern) (norm : ℚ)
    (hlen : pat.phases.length = pat.labels.length)
    (hne : pat.phases ≠ [])
    (hpos : ∀ d ∈ pat.phases, 0 < d)
    (h0 : 0 ≤ norm) (h1 : norm < 1) :
    (∃ l f r, calc_phase_progress norm pat pat.phases.sum = some (l, f, r) ∧
       l ∈ pat.labels ∧ 0 ≤ f ∧ f ≤ 1) ∧
    (∀ norm2 : ℚ, pat.phases.sum ≤ norm2 * pat.phases.sum →
       ∃ l, pat.labels.getLast? = some l ∧
         calc_phase_progress norm2 pat pat.phases.sum = some (l, 1, 0)) := by
  have hlne : pat.labels ≠ [] := by
    intro h
    apply hne
    have := hlen
    rw [h, List.length_nil, List.length_eq_zero] at this
    exact this
  have hlast := labels_getLast_isSome pat.labels hlne
  constructor
  · have hsum0 : 0 ≤ pat.phases.sum :=
      List.sum_nonneg fun x hx => (hpos x hx).le
    obtain ⟨l, f, r, hgo, hf0, hf1⟩ :=
      calcGo_bounds pat.labels.getLast? (norm * pat.phases.sum) hlast
        pat.phases pat.labels hlen hpos 0 (mul_nonneg h0 hsum0)
    refine ⟨l, f, r, hgo, ?_, hf0, hf1⟩
    rcases calcGo_label_mem _ _ _ _ _ _ _ _ hgo with hm | hg
    · exact hm
    · obtain ⟨h, rfl⟩ := List.mem_getLast?_eq_getLast (Option.mem_def.mpr hg)
      exact List.getLast_mem h
  · intro norm2 hge
    obtain ⟨l, hl⟩ := Option.isSome_iff_exists.mp hlast
    refine ⟨l, hl, ?_⟩
    have := calcGo_fallback pat.labels.getLast? (norm2 * pat.phases.sum)
      pat.phases pat.labels (fun d hd => (hpos d hd).le) 0 (by linarith)
    rw [calc_phase_progress, this, hl]
    norm_num

/-- Concrete instance of claim C2 at the "Balanced (1:1)" pattern and
progress `1/4`. -/
theorem resolvePhase_total_and_fallback_witness :
    (∃ l f r, calc_phase_progress (1/4) balanced_pattern
        balanced_pattern.phases.sum = some (l, f, r) ∧
       l ∈ balanced_pattern.labels ∧ 0 ≤ f ∧ f ≤ 1) ∧
    (∀ norm2 : ℚ, balanced_pattern.phases.sum ≤
        norm2 * balanced_pattern.phases.sum →
       ∃ l, balanced_pattern.labels.getLast? = some l ∧
         calc_phase_progress norm2 balanced_pattern
           balanced_pattern.phases.sum = some (l, 1, 0)) :=
  resolvePhase_total_and_fallback balanced_pattern (1/4)
    (by simp [balanced_pattern]) (by simp [balanced_pattern])
    (by intro d hd; simp [balanced_pattern] at hd; rcases hd with rfl | rfl <;> norm_num)
    (by norm_num) (by norm_num)

/-- Claim C3: the new progress equals
`(prevProgress + tickDurationSeconds / cycleSeconds) mod 1.0`
(the fractional part of that sum), and always lies in `[0, 1)`. -/
theorem advance_formula_and_range (prev tick : ℚ) (pat : BreathingPattern)
    (pace : ℚ) (h0 : 0 ≤ prev) (h1 : prev < 1) (ht : 0 < tick)
    (hpace : pat.uses_pace = true → 0 < pace)
    (hsum : pat.uses_pace = false → 0 < pat.phases.sum) :
    advance prev tick pat pace =
      Int.fract (prev + tick / cycleSeconds pat pace) ∧
    0 ≤ advance prev tick pat pace ∧ advance prev tick pat pace < 1 := by
  refine ⟨pymod_one_eq_fract _, ?_, ?_⟩ <;> rw [advance, pymod_one_eq_fract]
  · exact Int.fract_nonneg _
  · exact Int.fract_lt_one _

/-- Concrete instance of claim C3 at progress `0.999`, the 16 ms tick,
the "Balanced (1:1)" pattern, and the default pace: the advance wraps
around rather than reaching `1.0`. -/
theorem advance_formula_and_range_witness :
    advance (999/1000) (16/1000) balanced_pattern (11/2) =
      Int.fract ((999:ℚ)/1000 + (16/1000) / cycleSeconds balanced_pattern (11/2)) ∧
    0 ≤ advance (999/1000) (16/1000) balanced_pattern (11/2) ∧
    advance (999/1000) (16/1000) balanced_pattern (11/2) < 1 :=
  advance_formula_and_range (999/1000) (16/1000) balanced_pattern (11/2)
    (by norm_num) (by norm_num) (by norm_num)
    (fun _ => by norm_num) (fun h => by simp [balanced_pattern] at h)

/-- Claim C4: phase boundaries are closed on the left and open on the
right: whenever `t = norm * total` satisfies
`cumulative(i) ≤ t < cumulative(i) + durations[i]`, phase `i` is
returned with fraction `(t - c) / durations[i]` and remainder
`durations[i] - (t - c)`; a `t` exactly at a cumulative boundary
therefore belongs to the next phase. -/
theorem resolvePhase_left_closed (pat : BreathingPattern) (total norm : ℚ)
    (i : ℕ) (hi : i < pat.phases.length) (hj : i < pat.labels.length)
    (hpos : ∀ d ∈ pat.phases, 0 ≤ d)
    (hc : (pat.phases.take i).sum ≤ norm * total)
    (hlt : norm * total < (pat.phases.take i).sum + pat.phases.get ⟨i, hi⟩) :
    calc_phase_progress norm pat total =
      some (pat.labels.get ⟨i, hj⟩,
            (norm * total - (pat.phases.take i).sum) / pat.phases.get ⟨i, hi⟩,
            pat.phases.get ⟨i, hi⟩ - (norm * total - (pat.phases.take i).sum)) := by
  have := calcGo_at_index pat.labels.getLast? (norm * total) i
    pat.phases pat.labels hi hj hpos 0 (by simpa using hc) (by
      rw [add_zero]
      exact hlt)
  rw [calc_phase_progress, this]
  norm_num

/-- Concrete instance of claim C4: the 4-7-8 pattern at
`progress = 4/19` has `t = 4` exactly at the first boundary and
resolves to the next phase, `("hold", 0.0, 7)`. -/
theorem resolvePhase_left_closed_witness :
    calc_phase_progress (4/19) pat478 19 = some ("hold", 0, 7) := by
  have h := resolvePhase_left_closed pat478 19 (4/19) 1
    (by simp [pat478]) (by simp [pat478])
    (by intro d hd; simp [pat478] at hd; rcases hd with rfl | rfl | rfl <;> norm_num)
    (by norm_num [pat478]) (by norm_num [pat478])
  rw [h]
  norm_num [pat478]

/-- Claim C5: the scale-factor table maps `"inhale"` to
`0.2 + 0.8 * p`, `"exhale"` to `1.0 - 0.8 * p` and `"hold"` to the
constant `1.0`; in particular the inhale factor is `0.2` at `0` and
`1.0` at `1`, and the hold factor is `1.0` everywhere. -/
theorem scaleFactor_formulas (p : ℚ) (h0 : 0 ≤ p) (h1 : p ≤ 1) :
    scaleFactor "inhale" p = some (0.2 + 0.8 * p) ∧
    scaleFactor "exhale" p = some (1.0 - 0.8 * p) ∧
    scaleFactor "hold" p = some 1.0 ∧
    scaleFactor "inhale" 0 = some 0.2 ∧
    scaleFactor "inhale" 1 = some 1.0 ∧
    ∀ q : ℚ, scaleFactor "hold" q = some 1.0 := by
  exact ⟨rfl, rfl, rfl, by norm_num [scaleFactor, SCALE_FACTORS, List.lookup],
    by norm_num [scaleFactor, SCALE_FACTORS, List.lookup], fun q => rfl⟩

/-- Concrete instance of claim C5 at `p = 1/2`. -/
theorem scaleFactor_formulas_witness :
    scaleFactor "inhale" (1/2) = some (0.2 + 0.8 * (1/2)) ∧
    scaleFactor "exhale" (1/2) = some (1.0 - 0.8 * (1/2)) ∧
    scaleFactor "hold" (1/2) = some 1.0 ∧
    scaleFactor "inhale" 0 = some 0.2 ∧
    scaleFactor "inhale" 1 = some 1.0 ∧
    ∀ q : ℚ, scaleFactor "hold" q = some 1.0 :=
  scaleFactor_formulas (1/2) (by norm_num) (by norm_num)

/-- Claim C6 counterexample: the slider input `100` lies outside the
configured bounds `[2, 9]` (an invalid input), and `_update_scale`
clamps it to `9` but does not ring the bell — the audible alert and the
clamping never happen together, contradicting the claim that every
invalid input is both clamped and signalled. -/
theorem update_scale_invalid_no_bell :
    update_scale (some 100) (11/2) 2 9 (1/2) = (9, false) := by
  norm_num [update_scale, pyround]

/-- Claim C6 as amended: `_update_scale` never propagates a fault; a
parseable value is snapped to the step grid and clamped into
`[mn, mx]` silently (no bell), while an unparseable value leaves the
current value unchanged and rings the audible bell. -/
theorem update_scale_recovery (v cur mn mx step : ℚ) (hmn : mn ≤ mx) :
    update_scale none cur mn mx step = (cur, true) ∧
    (update_scale (some v) cur mn mx step).2 = false ∧
    mn ≤ (update_scale (some v) cur mn mx step).1 ∧
    (update_scale (some v) cur mn mx step).1 ≤ mx :=
  ⟨rfl, rfl, le_max_left _ _, max_le hmn (min_le_right _ _)⟩

/-- Concrete instance of the amended claim C6 at input `100` with the
breath-pace slider bounds. -/
theorem update_scale_recovery_witness :
    update_scale none (11/2) 2 9 (1/2) = (11/2, true) ∧
    (update_scale (some 100) (11/2) 2 9 (1/2)).2 = false ∧
    (2:ℚ) ≤ (update_scale (some 100) (11/2) 2 9 (1/2)).1 ∧
    (update_scale (some 100) (11/2) 2 9 (1/2)).1 ≤ 9 :=
  update_scale_recovery 100 (11/2) 2 9 (1/2) (by norm_num)

/-- Claim C7 counterexample: from a running state with a tick callback
pending in the event queue, `stop_session` leaves that tick pending —
the source never stores the handle of `master.after(UPDATE_INTERVAL,
...)` and cancels only `scheduled_end`, so the pending scheduled tick
is not cancelled. -/
theorem stop_session_keeps_pending_tick :
    (stop_session ⟨true, 1/2, "inhale", some 7, true⟩).pending_tick = true := rfl

/-- Claim C7 as amended: stopping a running session clears the running
flag and cancels the pending session-end callback, but leaves any
pending scheduled tick queued; when that tick fires with the flag
cleared it returns early and does not reschedule, leaving no tick
pending and the state otherwise unchanged. -/
theorem stop_session_cancels_end_not_tick (s : AppState)
    (pat : BreathingPattern) (pace : ℚ) (hr : s.is_running = true) :
    (stop_session s).is_running = false ∧
    (stop_session s).scheduled_end = none ∧
    (stop_session s).pending_tick = s.pending_tick ∧
    (∀ s2 : AppState, s2.is_running = false →
      fire_tick pat pace s2 = some { s2 with pending_tick := false }) := by
  refine ⟨?_, ?_, ?_, ?_⟩
  · simp [stop_session, reset_visuals, hr]
  · simp [stop_session, reset_visuals, hr]
  · simp [stop_session, reset_visuals, hr]
  · intro s2 h2
    obtain ⟨r2, pr2, ph2, se2, pt2⟩ := s2
    subst h2
    cases pt2 <;> simp [fire_tick, run_breathing_cycle]

/-- Concrete instance of the amended claim C7 at a running state with
both callbacks pending. -/
theorem stop_session_cancels_end_not_tick_witness :
    (stop_session ⟨true, 1/2, "inhale", some 7, true⟩).is_running = false ∧
    (stop_session ⟨true, 1/2, "inhale", some 7, true⟩).scheduled_end = none ∧
    (stop_session ⟨true, 1/2, "inhale", some 7, true⟩).pending_tick =
      (AppState.mk true (1/2) "inhale" (some 7) true).pending_tick ∧
    (∀ s2 : AppState, s2.is_running = false →
      fire_tick balanced_pattern (11/2) s2 = some { s2 with pending_tick := false }) :=
  stop_session_cancels_end_not_tick ⟨true, 1/2, "inhale", some 7, true⟩
    balanced_pattern (11/2) rfl

/-- Claim C8: stopping a session resets `progress` to `0` and
`current_phase` to the default rest label `"exhale"`, from every prior
state (running or not). -/
theorem stop_session_resets (s : AppState) :
    (stop_session s).progress = 0 ∧ (stop_session s).current_phase = "exhale" := by
  obtain ⟨r, pr, ph, se, pt⟩ := s
  cases r <;> simp [stop_session, reset_visuals]

/-- Claim C9 counterexample: the state with the running flag cleared
and the session-end handle still stored is reachable — a manual stop
goes through `toggle_session`, which clears the flag (line 127) before
calling `stop_session` (line 134), so the guard at line 137 skips the
cancel and `scheduled_end` keeps its handle.  One `stop_session` call
from that state leaves `scheduled_end = some 7`, not `none`,
falsifying the claim's "after one call, scheduled_end = None". -/
theorem stop_session_leaves_end_handle :
    toggle_session balanced_pattern (11/2) 9 ⟨true, 1/2, "inhale", some 7, true⟩ =
      some (stop_session ⟨false, 1/2, "inhale", some 7, true⟩) ∧
    stop_session ⟨false, 1/2, "inhale", some 7, true⟩ =
      ⟨false, 0, "exhale", some 7, true⟩ ∧
    ¬ (stop_session ⟨false, 1/2, "inhale", some 7, true⟩).scheduled_end = none := by
  refine ⟨rfl, rfl, ?_⟩
  intro h
  simp [stop_session, reset_visuals] at h

/-- Claim C9 as amended: `stop_session` raises no error and is
idempotent as a state transformer — a second call from any post-call
state changes nothing; after one call `is_running = false`,
`progress = 0` and `current_phase = "exhale"` hold from every prior
state, but `scheduled_end = none` holds only when the running flag was
still set at the call; when the flag had already been cleared (as in
`toggle_session`'s stop path) the session-end handle is retained. -/
theorem stop_session_idempotent_amended (s : AppState) :
    (stop_session s).is_running = false ∧
    (stop_session s).progress = 0 ∧
    (stop_session s).current_phase = "exhale" ∧
    (stop_session s).scheduled_end =
      (if s.is_running = true then none else s.scheduled_end) ∧
    stop_session (stop_session s) = stop_session s := by
  obtain ⟨r, pr, ph, se, pt⟩ := s
  cases r <;> simp [stop_session, reset_visuals]

/-- Claim C10: for every pattern of the compiled-in table and every
progress value, `_calc_phase_progress` returns a label among
`"inhale"`, `"hold"`, `"exhale"`; that set is exactly the key set of
both `PHASE_COLORS` and `SCALE_FACTORS`, so the dictionary lookups of
`_update_visuals` on the returned label always succeed. -/
theorem table_labels_safe (name : String) (pat : BreathingPattern)
    (hmem : (name, pat) ∈ patterns) (norm : ℚ) :
    (∃ l f r, calc_phase_progress norm pat pat.phases.sum = some (l, f, r) ∧
       (l = "inhale" ∨ l = "hold" ∨ l = "exhale") ∧
       (phaseColor l).isSome = true ∧ (scaleFactor l f).isSome = true) ∧
    (∀ k : String,
      k ∈ PHASE_COLORS.map Prod.fst ↔ k ∈ SCALE_FACTORS.map Prod.fst) := by
  obtain ⟨hlen, hlne, _, hsub⟩ := patterns_invariant name pat hmem
  constructor
  · obtain ⟨l, f, r, hcalc, hl⟩ :=
      calc_phase_progress_mem pat norm pat.phases.sum hlen hlne
    refine ⟨l, f, r, hcalc, hsub l hl, ?_, ?_⟩ <;>
      rcases hsub l hl with rfl | rfl | rfl <;> rfl
  · intro k
    simp [PHASE_COLORS, SCALE_FACTORS]
    tauto

/-- Concrete instance of claim C10 at the "Balanced (1:1)" table entry
and progress `1/3`. -/
theorem table_labels_safe_witness :
    (("Balanced (1:1)", balanced_pattern) ∈ patterns) ∧
    ((∃ l f r, calc_phase_progress (1/3) balanced_pattern
         balanced_pattern.phases.sum = some (l, f, r) ∧
       (l = "inhale" ∨ l = "hold" ∨ l = "exhale") ∧
       (phaseColor l).isSome = true ∧ (scaleFactor l f).isSome = true) ∧
    (∀ k : String,
      k ∈ PHASE_COLORS.map Prod.fst ↔ k ∈ SCALE_FACTORS.map Prod.fst)) :=
  ⟨by simp [patterns, balanced_pattern],
   table_labels_safe "Balanced (1:1)" balanced_pattern
     (by simp [patterns, balanced_pattern]) (1/3)⟩

end Pulso
